import Mathlib

/-!
Verification of the adwall repository (zaorinu-test/adwall) against its
natural-language specification.

The development shallowly embeds the JavaScript client (src/client/adwall.js
and the protocol variants in src/unnamed/part_000 .. part_002) in Lean:

* JSON values, `JSON.stringify` and `JSON.parse` are modelled concretely
  (`Json`, `jdump`, `jsonParse`): integers stand for JS numbers (the
  repository only serialises booleans, integers and byte arrays), and the
  two-space indentation of `JSON.stringify(x, null, 2)` is omitted (the
  parser skips whitespace, so parsing is unaffected).
* AES-256-GCM (a Node crypto-library primitive, external to the repository)
  is idealised: the ciphertext carries the plaintext bytes and the
  authentication tag is a perfectly binding encoding of (key, iv, data),
  which models GCM's authentication guarantee; the 32-byte machine key
  (the SHA-256 machine fingerprint) is an abstract byte list.
* The HTTP handlers become pure transition functions on explicit gate
  state; `Date.now()` is a request-supplied instant, the random IV and the
  external work.ink verifier's answer are request-supplied oracles.
-/

namespace Adwall

/-! ### Characters, digits, hexadecimal -/

/-- JSON insignificant whitespace, as accepted by `JSON.parse`. -/
def wsChar (c : Char) : Bool :=
  c == ' ' || c == '\n' || c == '\t' || c == '\r'

/-- Drop leading JSON whitespace. -/
def dropWs : List Char → List Char
  | [] => []
  | c :: r => if wsChar c then dropWs r else c :: r

/-- The decimal digit character for `d < 10`. -/
def digCh (d : Nat) : Char := Char.ofNat (48 + d)

/-- Decimal digit characters, most significant first, over a fuel counter
(fuel `n + 1` always suffices), keeping the function kernel-computable. -/
def natCharsAux : Nat → Nat → List Char
  | 0, _ => []
  | fuel + 1, n => if n < 10 then [digCh n] else natCharsAux fuel (n / 10) ++ [digCh (n % 10)]

/-- Decimal digit characters of a natural number, most significant first. -/
def natChars (n : Nat) : List Char := natCharsAux (n + 1) n

/-- Character sequence `JSON.stringify` produces for an integral JS number. -/
def intChars (i : Int) : List Char :=
  if i < 0 then '-' :: natChars i.natAbs else natChars i.natAbs

/-- Numeric value of a run of decimal digit characters. -/
def valOfDigits (ds : List Char) : Nat :=
  ds.foldl (fun acc c => 10 * acc + (c.toNat - 48)) 0

/-- Split a maximal run of decimal digits off the front of the input. -/
def grabDigits : List Char → List Char × List Char
  | [] => ([], [])
  | c :: r =>
    if c.isDigit then
      let p := grabDigits r
      (c :: p.1, p.2)
    else ([], c :: r)

/-- Lower-case hexadecimal digit character for `d < 16`. -/
def hexCh (d : Nat) : Char :=
  if d < 10 then Char.ofNat (48 + d) else Char.ofNat (87 + d)

/-- Value of a hexadecimal digit character, if it is one. -/
def unhex (c : Char) : Option Nat :=
  if 48 ≤ c.toNat ∧ c.toNat ≤ 57 then some (c.toNat - 48)
  else if 97 ≤ c.toNat ∧ c.toNat ≤ 102 then some (c.toNat - 87)
  else if 65 ≤ c.toNat ∧ c.toNat ≤ 70 then some (c.toNat - 55)
  else none

/-! ### JSON values -/

/-- A JSON value as the repository manipulates them: JS numbers are modelled
as integers (the code only serialises booleans, timestamps and byte values);
strings are character lists. -/
inductive Json where
  | jnull
  | jbool (b : Bool)
  | jnum (n : Int)
  | jstr (s : List Char)
  | jarr (xs : List Json)
  | jobj (fs : List (List Char × Json))

/-! ### Serialisation (`JSON.stringify`) -/

/-- `JSON.stringify`'s escaping of one string character. -/
def escChar (c : Char) : List Char :=
  if c = '"' then ['\\', '"']
  else if c = '\\' then ['\\', '\\']
  else if c = '\n' then ['\\', 'n']
  else if c = '\r' then ['\\', 'r']
  else if c = '\t' then ['\\', 't']
  else if c = '\x08' then ['\\', 'b']
  else if c = '\x0c' then ['\\', 'f']
  else if c.toNat < 32 then
    ['\\', 'u', '0', '0', hexCh (c.toNat / 16), hexCh (c.toNat % 16)]
  else [c]

/-- `JSON.stringify`'s escaping of a whole string body. -/
def escStr : List Char → List Char
  | [] => []
  | c :: s => escChar c ++ escStr s

mutual

/-- `JSON.stringify` (compact form; the repository's two-space indentation is
whitespace the parser skips, so it is omitted). -/
def jdump : Json → List Char
  | .jnull => ['n', 'u', 'l', 'l']
  | .jbool true => ['t', 'r', 'u', 'e']
  | .jbool false => ['f', 'a', 'l', 's', 'e']
  | .jnum n => intChars n
  | .jstr s => '"' :: (escStr s ++ ['"'])
  | .jarr xs => '[' :: (jdumpItems xs ++ [']'])
  | .jobj fs => '\x7b' :: (jdumpFields fs ++ ['\x7d'])

/-- Array elements: the first one, then the comma-prefixed rest. -/
def jdumpItems : List Json → List Char
  | [] => []
  | x :: xs => jdump x ++ jdumpSep xs

/-- Comma-prefixed trailing array elements. -/
def jdumpSep : List Json → List Char
  | [] => []
  | x :: xs => ',' :: (jdump x ++ jdumpSep xs)

/-- One `"key":value` object member. -/
def jdumpField : List Char × Json → List Char
  | (k, v) => '"' :: (escStr k ++ '"' :: ':' :: jdump v)

/-- Object members: the first one, then the comma-prefixed rest. -/
def jdumpFields : List (List Char × Json) → List Char
  | [] => []
  | f :: fs => jdumpField f ++ jdumpFieldSep fs

/-- Comma-prefixed trailing object members. -/
def jdumpFieldSep : List (List Char × Json) → List Char
  | [] => []
  | f :: fs => ',' :: (jdumpField f ++ jdumpFieldSep fs)

end

/-! ### Parsing (`JSON.parse`) -/

/-- Parse a JSON string body after the opening quote, undoing the escapes. -/
def strBody : List Char → Option (List Char × List Char)
  | [] => none
  | c :: r =>
    if c = '"' then some ([], r)
    else if c = '\\' then
      match r with
      | [] => none
      | e :: r2 =>
        if e = 'u' then
          match r2 with
          | h1 :: h2 :: h3 :: h4 :: r3 =>
            match unhex h1, unhex h2, unhex h3, unhex h4 with
            | some a, some b, some c2, some d =>
              (strBody r3).map fun p =>
                (Char.ofNat (4096 * a + 256 * b + 16 * c2 + d) :: p.1, p.2)
            | _, _, _, _ => none
          | _ => none
        else if e = '"' then (strBody r2).map fun p => ('"' :: p.1, p.2)
        else if e = '\\' then (strBody r2).map fun p => ('\\' :: p.1, p.2)
        else if e = '/' then (strBody r2).map fun p => ('/' :: p.1, p.2)
        else if e = 'n' then (strBody r2).map fun p => ('\n' :: p.1, p.2)
        else if e = 'r' then (strBody r2).map fun p => ('\r' :: p.1, p.2)
        else if e = 't' then (strBody r2).map fun p => ('\t' :: p.1, p.2)
        else if e = 'b' then (strBody r2).map fun p => ('\x08' :: p.1, p.2)
        else if e = 'f' then (strBody r2).map fun p => ('\x0c' :: p.1, p.2)
        else none
    else (strBody r).map fun p => (c :: p.1, p.2)

/-- Parse an unsigned integer literal (maximal digit run). -/
def numLit (s : List Char) : Option (Nat × List Char) :=
  let p := grabDigits s
  if p.1 = [] then none else some (valOfDigits p.1, p.2)

mutual

/-- One JSON value (recursive descent over a fuel counter; fuel at least the
input length always suffices, see `jread_jdump`). -/
def jread : Nat → List Char → Option (Json × List Char)
  | 0, _ => none
  | fuel + 1, s =>
    match dropWs s with
    | [] => none
    | c :: r =>
      if c = 'n' then
        match r with
        | 'u' :: 'l' :: 'l' :: r2 => some (.jnull, r2)
        | _ => none
      else if c = 't' then
        match r with
        | 'r' :: 'u' :: 'e' :: r2 => some (.jbool true, r2)
        | _ => none
      else if c = 'f' then
        match r with
        | 'a' :: 'l' :: 's' :: 'e' :: r2 => some (.jbool false, r2)
        | _ => none
      else if c = '"' then
        (strBody r).map fun p => (.jstr p.1, p.2)
      else if c = '[' then
        jreadItems fuel r
      else if c = '\x7b' then
        jreadFields fuel r
      else if c = '-' then
        (numLit r).map fun p => (.jnum (-(p.1 : Int)), p.2)
      else if c.isDigit then
        (numLit (c :: r)).map fun p => (.jnum (p.1 : Int), p.2)
      else none

/-- Array items after the opening bracket (possibly none). -/
def jreadItems : Nat → List Char → Option (Json × List Char)
  | 0, _ => none
  | fuel + 1, s =>
    match dropWs s with
    | [] => none
    | c :: r =>
      if c = ']' then some (.jarr [], r)
      else
        match jread fuel (c :: r) with
        | none => none
        | some (v, r1) =>
          match jreadTail fuel r1 with
          | none => none
          | some (vs, r2) => some (.jarr (v :: vs), r2)

/-- Further array items, each preceded by a comma, up to the closing bracket. -/
def jreadTail : Nat → List Char → Option (List Json × List Char)
  | 0, _ => none
  | fuel + 1, s =>
    match dropWs s with
    | [] => none
    | c :: r =>
      if c = ']' then some ([], r)
      else if c = ',' then
        match jread fuel r with
        | none => none
        | some (v, r2) =>
          match jreadTail fuel r2 with
          | none => none
          | some (vs, r3) => some (v :: vs, r3)
      else none

/-- Object members after the opening brace (possibly none). -/
def jreadFields : Nat → List Char → Option (Json × List Char)
  | 0, _ => none
  | fuel + 1, s =>
    match dropWs s with
    | [] => none
    | c :: r =>
      if c = '\x7d' then some (.jobj [], r)
      else
        match jreadField fuel (c :: r) with
        | none => none
        | some (kv, r1) =>
          match jreadFieldTail fuel r1 with
          | none => none
          | some (kvs, r2) => some (.jobj (kv :: kvs), r2)

/-- One `"key": value` member. -/
def jreadField : Nat → List Char → Option ((List Char × Json) × List Char)
  | 0, _ => none
  | fuel + 1, s =>
    match s with
    | '"' :: r =>
      match strBody r with
      | none => none
      | some (k, r1) =>
        match dropWs r1 with
        | ':' :: r2 =>
          match jread fuel r2 with
          | none => none
          | some (v, r3) => some ((k, v), r3)
        | _ => none
    | _ => none

/-- Further object members, each preceded by a comma, up to the closing brace. -/
def jreadFieldTail : Nat → List Char → Option (List (List Char × Json) × List Char)
  | 0, _ => none
  | fuel + 1, s =>
    match dropWs s with
    | [] => none
    | c :: r =>
      if c = '\x7d' then some ([], r)
      else if c = ',' then
        match jreadField fuel (dropWs r) with
        | none => none
        | some (kv, r2) =>
          match jreadFieldTail fuel r2 with
          | none => none
          | some (kvs, r3) => some (kv :: kvs, r3)
      else none

end

/-- `JSON.parse`: parse a whole document, allowing trailing whitespace only. -/
def jsonParse (s : List Char) : Option Json :=
  match jread (s.length + 1) s with
  | some (v, rest) => if dropWs rest = [] then some v else none
  | none => none

/-! ### JS object access -/

/-- Look up a key in an object member list (first occurrence; keys written by
the repository are unique). -/
def lookupField : List (List Char × Json) → List Char → Option Json
  | [], _ => none
  | (k0, v) :: fs, k => if k0 = k then some v else lookupField fs k

/-- JS property access `j.k`: `none` models `undefined` (also for access on a
non-object primitive, which JS answers with `undefined` rather than a throw). -/
def getField (j : Json) (k : List Char) : Option Json :=
  match j with
  | .jobj fs => lookupField fs k
  | _ => none

/-- JS truthiness of a possibly-absent value (`undefined`, `null`, `false`,
`0` and the empty string are falsy). -/
def jsTruthy : Option Json → Bool
  | none => false
  | some .jnull => false
  | some (.jbool b) => b
  | some (.jnum n) => decide (n ≠ 0)
  | some (.jstr s) => decide (s ≠ [])
  | some (.jarr _) => true
  | some (.jobj _) => true

/-- A JSON array of numbers read back as a byte list (`Buffer.from` on the
stored arrays); anything else is modelled as the throw `Buffer.from` raises
on `undefined` (collapsed by every caller's `try/catch`). -/
def numListOf : List Json → Option (List Int)
  | [] => some []
  | .jnum n :: xs => (numListOf xs).map fun l => n :: l
  | _ => none

/-- Interpret a JSON value as a byte array. -/
def asNums : Json → Option (List Int)
  | .jarr xs => numListOf xs
  | _ => none

/-! ### Idealised AES-256-GCM with machine-derived key

`machineKey()` digests hostname + platform + arch + username with SHA-256 and
uses the 32-byte digest as the AES key; that digest is the machine
fingerprint of the specification. The hash and cipher live in Node's crypto
library, outside the repository, so the digest is abstracted to a byte list
and the cipher is idealised: the ciphertext carries the plaintext bytes and
the authentication tag is a perfectly binding (injective) encoding of
(key, iv, ciphertext), modelling GCM's authentication guarantee. -/

/-- The machine fingerprint / AES-256 key: the SHA-256 digest of the machine
attributes, abstracted to a byte list. -/
abbrev MachineKey := List Int

/-- The `{iv, tag, data}` object `encrypt` returns and `key.json` stores. -/
structure GcmPayload where
  iv : List Int
  tag : List Int
  data : List Int
deriving DecidableEq

/-- Idealised GCM authentication tag: a length-prefixed encoding of the key,
the nonce and the ciphertext (injective, hence perfectly binding). -/
def tagOf (key : MachineKey) (iv data : List Int) : List Int :=
  (key.length : Int) :: key ++ (iv.length : Int) :: iv ++ data

/-- Bytes of a character list (code points; UTF-8 details abstracted). -/
def bytesOfChars (s : List Char) : List Int := s.map fun c => (c.toNat : Int)

/-- Characters of a byte list. -/
def charsOfBytes (b : List Int) : List Char := b.map fun n => Char.ofNat n.toNat

/-- `encrypt(obj)`: AES-256-GCM over `JSON.stringify(obj)` with a random IV
(supplied by the caller as an oracle) under the machine key. -/
def encrypt (key : MachineKey) (iv : List Int) (obj : Json) : GcmPayload :=
  let data := bytesOfChars (jdump obj)
  { iv := iv, tag := tagOf key iv data, data := data }

/-- `decrypt(payload)`: verifies the authentication tag under the machine key
and parses the plaintext; `none` models the throw on a bad tag (tampered data
or wrong machine) or unparsable plaintext. -/
def decrypt (key : MachineKey) (p : GcmPayload) : Option Json :=
  if p.tag = tagOf key p.iv p.data then jsonParse (charsOfBytes p.data) else none

/-! ### Credential store -/

/-- The `{iv, tag, data}` object as the JSON value stored in `key.json`. -/
def numsJson (l : List Int) : Json := .jarr (l.map .jnum)

/-- Serialise a payload to the JSON value `JSON.stringify` receives. -/
def payloadToJson (p : GcmPayload) : Json :=
  .jobj [("iv".data, numsJson p.iv), ("tag".data, numsJson p.tag),
         ("data".data, numsJson p.data)]

/-- Read the `{iv, tag, data}` fields back off a parsed `key.json`
(`Buffer.from` on each; a missing or non-array field throws, which every
caller catches). -/
def jsonToPayload (j : Json) : Option GcmPayload :=
  match getField j ("iv".data), getField j ("tag".data), getField j ("data".data) with
  | some ji, some jt, some jd =>
    match asNums ji, asNums jt, asNums jd with
    | some iv, some tag, some data => some { iv := iv, tag := tag, data := data }
    | _, _, _ => none
  | _, _, _ => none

/-- The plaintext credential `{valid: b, at: t}` the client encrypts. -/
def credentialJson (valid : Bool) (issuedAt : Int) : Json :=
  .jobj [("valid".data, .jbool valid), ("at".data, .jnum issuedAt)]

/-- The exact text `fs.writeFileSync` stores in `key.json` (modulo the
two-space indentation, which parsing skips). -/
def keyBlob (key : MachineKey) (iv : List Int) (valid : Bool) (issuedAt : Int) :
    List Char :=
  jdump (payloadToJson (encrypt key iv (credentialJson valid issuedAt)))

/-- `hasValidKey(file, maxAge)` of src/client/adwall.js lines 106-120: the
file-system content is `none` when the file is absent, otherwise the raw
text; `Date.now()` is the parameter `now`. Every failure (unreadable JSON,
decryption throw, falsy `valid`, expiry) collapses to `false` through the
source's early returns and `try/catch`. A present non-numeric `at` makes the
JS comparison `now - d.at > maxAge` evaluate to `false` over `NaN`, so the
function returns `true` there, as in the source. -/
def hasValidKey (key : MachineKey) (file : Option (List Char)) (now maxAge : Int) :
    Bool :=
  match file with
  | none => false
  | some raw =>
    match jsonParse raw with
    | none => false
    | some rawJson =>
      match jsonToPayload rawJson with
      | none => false
      | some p =>
        match decrypt key p with
        | none => false
        | some d =>
          if !(jsTruthy (getField d ("valid".data))) then false
          else
            match getField d ("at".data) with
            | some (.jnum t) => if now - t > maxAge then false else true
            | _ => true

/-! ### Rate limiter (src/client/adwall.js lines 128-178) -/

/-- `ratelimitMs` of `checkIPRateLimit`: a 20-second rolling window. -/
def ratelimitMs : Int := 20 * 1000

/-- The result object of `checkIPRateLimit`. -/
inductive RateCheck where
  | allowed
  | limited (nextRetryTime : Int) (recentCount : Nat)
deriving DecidableEq

/-- `Math.min(...list)` on a nonempty list (the source only calls it on a
list of length at least one). -/
def jsMin : List Int → Int
  | [] => 0
  | x :: xs => xs.foldl min x

/-- `checkIPRateLimit(ip)` for one identity's timestamp list: prunes entries
at or before `now - ratelimitMs`, stores the pruned list back (second
component), and rejects when at least one recent entry remains, quoting
`oldestAttempt + ratelimitMs` as the next retry time. -/
def checkIPRateLimit (attempts : List Int) (now : Int) : RateCheck × List Int :=
  let cutoff := now - ratelimitMs
  let recent := attempts.filter fun ts => cutoff < ts
  if recent.length ≥ 1 then
    (.limited (jsMin recent + ratelimitMs) recent.length, recent)
  else (.allowed, recent)

/-- `recordValidation(ip)`: append the current instant to the identity's
timestamp list. -/
def recordValidation (attempts : List Int) (now : Int) : List Int :=
  attempts ++ [now]

/-! ### External token verifier (src/client/adwall.js lines 237-287)

The HTTPS exchange with work.ink is external; the response is supplied as an
oracle (`ApiOutcome`). The parsing and decision logic is the repository's. -/

inductive VerifyErr where
  | invalidToken
  | tokenExpired
  | validationError
  | apiError
deriving DecidableEq

inductive VerifyResult where
  | accepted
  | rejected (e : VerifyErr)
deriving DecidableEq

/-- The network outcome of the `https.get` call: transport error, or a
response body. -/
inductive ApiOutcome where
  | netError
  | payload (raw : List Char)

/-- `validateWorkinkToken`: parse the API response; reject when the provider
does not mark the token valid, or when `now` is past `info.expiresAfter`.
Accessing `info.expiresAfter` on a missing or null `info` throws a TypeError
that the surrounding `try/catch` converts to the generic validation error; a
non-numeric `expiresAfter` makes `now > expiresAfter` false over `NaN`, so
the token passes, as in the source. The IP comparison is log-only. -/
def validateWorkinkToken (outcome : ApiOutcome) (now : Int) : VerifyResult :=
  match outcome with
  | .netError => .rejected .apiError
  | .payload raw =>
    match jsonParse raw with
    | none => .rejected .validationError
    | some resp =>
      if !(jsTruthy (getField resp ("valid".data))) then .rejected .invalidToken
      else
        match getField resp ("info".data) with
        | none => .rejected .validationError
        | some .jnull => .rejected .validationError
        | some info =>
          match getField info ("expiresAfter".data) with
          | some (.jnum e) => if now > e then .rejected .tokenExpired else .accepted
          | _ => .accepted

/-! ### The canonical client's gate state and `/validate` handler
(src/client/adwall.js lines 319-522) -/

/-- The value the `adwall(config)` promise resolves with. -/
structure GateResult where
  valid : Bool
  url : Option String
deriving DecidableEq

/-- One entry of the `sessions` map (src/client/adwall.js lines 360-366). -/
structure SessionRec where
  expected : String
  startTime : Int
  minTime : Int
  validated : Bool
deriving DecidableEq

/-- Per-run constants of the client. -/
structure ClientConfig where
  mkey : MachineKey
  startTime : Int
  maxAge : Int

/-- The mutable gate state: the rate-limit ledger (`validationAttempts`,
total map with default `[]`), the key file, the `sessions` map, whether
`server.close()` has run, and the promise's resolution. -/
structure ClientState where
  attempts : String → List Int
  keyFile : Option (List Char)
  sessions : List (String × SessionRec)
  serverClosed : Bool
  resolved : Option GateResult

/-- One `/validate` request: the `token` query parameter, the caller identity
(`x-forwarded-for` / remote address), the user-agent browser heuristic,
`Date.now()`, the work.ink response oracle and the random-IV oracle. -/
structure ClientReq where
  token : Option String
  ip : String
  browser : Bool
  now : Int
  api : ApiOutcome
  iv : List Int

/-- The observable outcome of one `/validate` dispatch in the canonical
client: an HTTP response, or the uncaught `ReferenceError` the handler
throws by reading the undeclared variable `debug` — declared only as a
parameter of `validateWorkinkToken`, never in the server handler's scope —
before the rate-limit rejection (line 428) or the minimum-delay rejection
(line 443) is ever written. The two crashes are distinct outcomes because
the error's stack trace names the throwing line; in either case no response
is sent (and Node's default for an exception escaping a request listener is
to kill the process). -/
inductive ClientResp where
  | missingToken
  | rateLimitedCrash
  | tooFastCrash
  | verifyFailed (e : VerifyErr)
  | successText (daysLeft : Int)
  | successJson (expiresIn : Int)
deriving DecidableEq

/-- Point update of the `validationAttempts` map. -/
def updateMap (m : String → List Int) (k : String) (v : List Int) :
    String → List Int :=
  fun k2 => if k2 = k then v else m k2

/-- JS promise resolution: only the first `resolve` takes effect. -/
def jsResolve (r : Option GateResult) (v : GateResult) : Option GateResult :=
  match r with
  | some r0 => some r0
  | none => some v

/-- `Math.ceil(a / b)` for positive `b`. -/
def jsCeil (a b : Int) : Int := -(Int.fdiv (-a) b)

/-- The hard-coded `minimumDelay` of the `/validate` handler (20 seconds). -/
def minimumDelay : Int := 20000

/-- The `/validate` handler of src/client/adwall.js lines 412-512, as a
transition function. Order as in the source: missing token, then the
IP rate limit, then the 20-second minimum delay from `startTime`, then the
work.ink verification; on success `recordValidation`, the encrypted key
write, the browser/JSON response, and promise resolution — with no
`server.close()` (the source deliberately keeps the server running). The
rate-limited and premature branches never deliver their 429/400 responses:
each reads the undeclared `debug` (`if (debug) console.log(...)`, lines
428 and 443) and throws an uncaught `ReferenceError` first; the pruning
that `checkIPRateLimit` stored back into `validationAttempts` has already
happened by then, so it survives in the post-state. The `sessions` map is
never consulted or updated by this handler, as in the source. -/
def validateHandler (cfg : ClientConfig) (st : ClientState) (req : ClientReq) :
    ClientResp × ClientState :=
  match req.token with
  | none => (.missingToken, st)
  | some _ =>
    let rl := checkIPRateLimit (st.attempts req.ip) req.now
    let st1 := { st with attempts := updateMap st.attempts req.ip rl.2 }
    match rl.1 with
    | .limited _ _ => (.rateLimitedCrash, st1)
    | .allowed =>
      let elapsedSinceStart := req.now - cfg.startTime
      if elapsedSinceStart < minimumDelay then
        (.tooFastCrash, st1)
      else
        match validateWorkinkToken req.api req.now with
        | .rejected e => (.verifyFailed e, st1)
        | .accepted =>
          let st2 := { st1 with
            attempts := updateMap st1.attempts req.ip (recordValidation rl.2 req.now) }
          let st3 := { st2 with
            keyFile := some (keyBlob cfg.mkey req.iv true req.now),
            resolved := jsResolve st2.resolved { valid := true, url := none } }
          if req.browser then (.successText (jsCeil cfg.maxAge 86400000), st3)
          else (.successJson cfg.maxAge, st3)

/-! ### The part_000 variant's final-redirect handler
(src/unnamed/part_000 lines 191-291, "/" route) -/

/-- Per-run constants of the part_000 variant. -/
structure P0Config where
  mkey : MachineKey
  expectedReferrer : String
  sessionTimeout : Int
  minDelay : Int
  expected : String
  startTime : Int

/-- The part_000 gate state. -/
structure P0State where
  keyFile : Option (List Char)
  serverClosed : Bool
  resolved : Option GateResult

/-- One final-redirect request: the `Referer` header's origin as computed by
`new URL(referrer).origin` (`none` when the header is absent, in which case
the source's `referrerUrl` is `null`), the `v` query parameter, `Date.now()`
and the random-IV oracle. -/
structure P0Req where
  refererOrigin : Option String
  v : Option String
  now : Int
  iv : List Int

/-- The "/" responses of the part_000 variant. -/
inductive P0Resp where
  | invalidReferrer
  | sessionExpired
  | minimumDelayNotMet (remainingDelay : Int)
  | result (valid : Bool)
deriving DecidableEq

/-- Whether a response is the retryable premature rejection. -/
def isMinDelayResp : P0Resp → Bool
  | .minimumDelayNotMet _ => true
  | _ => false

/-- The "/" final-redirect handler of src/unnamed/part_000 lines 217-286:
referrer check first (403, close, resolve false), then session expiration
(408, close, resolve false), then the minimum-delay check (429, state
untouched — the session stays open), then the code comparison `v ===
expected` with the key write on success, the `{valid}` response, close, and
resolution. -/
def rootHandler (cfg : P0Config) (st : P0State) (req : P0Req) : P0Resp × P0State :=
  let elapsed := req.now - cfg.startTime
  if req.refererOrigin ≠ some cfg.expectedReferrer then
    (.invalidReferrer,
      { st with serverClosed := true,
                resolved := jsResolve st.resolved { valid := false, url := none } })
  else if elapsed > cfg.sessionTimeout then
    (.sessionExpired,
      { st with serverClosed := true,
                resolved := jsResolve st.resolved { valid := false, url := none } })
  else if elapsed < cfg.minDelay then
    (.minimumDelayNotMet (cfg.minDelay - elapsed), st)
  else
    let valid := req.v = some cfg.expected
    let st1 :=
      if valid then
        { st with keyFile := some (keyBlob cfg.mkey req.iv true req.now) }
      else st
    (.result (decide valid),
      { st1 with serverClosed := true,
                 resolved := jsResolve st1.resolved { valid := decide valid, url := none } })

/-! ### Concrete instances (used by closed witnesses below) -/

/-- A work.ink response body marking the token valid and unexpired. -/
def okBody : List Char :=
  ("\x7b\"valid\":true,\"info\":\x7b\"expiresAfter\":900000000\x7d\x7d").data

/-- A concrete client configuration: machine key `[1]`, session started at
instant 0, one-day credential lifetime. -/
def cfgEx : ClientConfig := { mkey := [1], startTime := 0, maxAge := 86400000 }

/-- The single session the client creates at startup (`validated: false`). -/
def sessEx : SessionRec :=
  { expected := "codehash", startTime := 0, minTime := 15000, validated := false }

/-- The fresh gate state right after the client's server starts listening. -/
def stEmpty : ClientState :=
  { attempts := fun _ => [], keyFile := none, sessions := [("sid-1", sessEx)],
    serverClosed := false, resolved := none }

/-- A gate state whose rate-limit ledger holds a validation at instant 4000
for every identity. -/
def stRecent : ClientState := { stEmpty with attempts := fun _ => [4000] }

/-- A well-formed `/validate` request at the 20-second dwell boundary with a
token the external verifier accepts. -/
def reqA : ClientReq :=
  { token := some "tok", ip := "1.2.3.4", browser := false, now := 20000,
    api := .payload okBody, iv := [3] }

/-- The identical request arriving again once the 20-second rate window has
passed. -/
def reqB : ClientReq := { reqA with now := 40001 }

/-- A request that is premature (5 seconds after session start) and whose
verification would fail on the network. -/
def reqEarly : ClientReq := { reqA with now := 5000, api := .netError }

/-- The timely request `reqA` with a network failure on the verification. -/
def reqNet : ClientReq := { reqA with api := .netError }

/-- A remainder that cannot extend a number literal: empty or starting with a
non-digit (every JSON delimiter qualifies). -/
def noDigitHead : List Char → Bool
  | [] => true
  | c :: _ => !c.isDigit

/-! ## Round-trip lemmas for the JSON codec -/

theorem charOfNat_toNat {n : Nat} (h : n < 55296) : (Char.ofNat n).toNat = n := by
  unfold Char.ofNat
  rw [dif_pos (Or.inl h)]
  rfl

theorem digCh_toNat {d : Nat} (h : d < 10) : (digCh d).toNat = 48 + d := by
  have : 48 + d < 55296 := by omega
  simpa [digCh] using charOfNat_toNat this

theorem digCh_isDigit {d : Nat} (h : d < 10) : (digCh d).isDigit = true := by
  interval_cases d <;> decide

theorem natCharsAux_fuel : ∀ (f1 f2 n : Nat), n < f1 → n < f2 →
    natCharsAux f1 n = natCharsAux f2 n := by
  intro f1 f2 n
  induction n using Nat.strong_induction_on generalizing f1 f2 with
  | _ n ih =>
    intro h1 h2
    cases f1 with
    | zero => omega
    | succ g1 =>
      cases f2 with
      | zero => omega
      | succ g2 =>
        by_cases hn : n < 10
        · simp [natCharsAux, hn]
        · have hlt : n / 10 < n := by omega
          simp only [natCharsAux, if_neg hn]
          rw [ih (n / 10) hlt g1 g2 (by omega) (by omega)]

theorem natChars_eq (n : Nat) :
    natChars n = if n < 10 then [digCh n] else natChars (n / 10) ++ [digCh (n % 10)] := by
  rw [natChars, natCharsAux]
  by_cases hn : n < 10
  · simp [hn]
  · rw [if_neg hn, if_neg hn, natChars,
        natCharsAux_fuel n (n / 10 + 1) (n / 10) (by omega) (by omega)]

theorem natChars_digits (n : Nat) : ∀ c ∈ natChars n, c.isDigit = true := by
  induction n using Nat.strong_induction_on with
  | _ n ih =>
    rw [natChars_eq]
    by_cases h : n < 10
    · simpa [h] using digCh_isDigit h
    · rw [if_neg h]
      intro c hc
      rcases List.mem_append.mp hc with h1 | h1
      · exact ih (n / 10) (by omega) c h1
      · rcases List.mem_singleton.mp h1 with rfl
        exact digCh_isDigit (Nat.mod_lt _ (by omega))

theorem natChars_ne_nil (n : Nat) : natChars n ≠ [] := by
  rw [natChars_eq]
  by_cases h : n < 10 <;> simp [h]

theorem natChars_head (n : Nat) :
    ∃ c t, natChars n = c :: t ∧ c.isDigit = true := by
  cases hn : natChars n with
  | nil => exact absurd hn (natChars_ne_nil n)
  | cons c t =>
    exact ⟨c, t, rfl, natChars_digits n c (hn ▸ List.mem_cons_self c t)⟩

theorem valOfDigits_append_digit (ds : List Char) (c : Char) :
    valOfDigits (ds ++ [c]) = 10 * valOfDigits ds + (c.toNat - 48) := by
  simp [valOfDigits, List.foldl_append]

theorem valOfDigits_natChars (n : Nat) : valOfDigits (natChars n) = n := by
  induction n using Nat.strong_induction_on with
  | _ n ih =>
    rw [natChars_eq]
    by_cases h : n < 10
    · simp [h, valOfDigits, digCh_toNat h]
    · rw [if_neg h, valOfDigits_append_digit, ih (n / 10) (by omega),
          digCh_toNat (Nat.mod_lt _ (by omega))]
      omega

theorem grabDigits_none {s : List Char} (h : noDigitHead s = true) :
    grabDigits s = ([], s) := by
  cases s with
  | nil => rfl
  | cons c r =>
    simp only [noDigitHead, Bool.not_eq_true'] at h
    simp [grabDigits, h]

theorem grabDigits_run {ds : List Char} (hds : ∀ c ∈ ds, c.isDigit = true)
    {rest : List Char} (hrest : noDigitHead rest = true) :
    grabDigits (ds ++ rest) = (ds, rest) := by
  induction ds with
  | nil => simpa using grabDigits_none hrest
  | cons c t ih =>
    have hc : c.isDigit = true := hds c (List.mem_cons_self c t)
    have ht := ih fun x hx => hds x (List.mem_cons_of_mem c hx)
    simp [grabDigits, hc, ht]

theorem numLit_natChars (n : Nat) {rest : List Char} (hrest : noDigitHead rest = true) :
    numLit (natChars n ++ rest) = some (n, rest) := by
  rw [numLit, grabDigits_run (natChars_digits n) hrest]
  simp [natChars_ne_nil n, valOfDigits_natChars n]

theorem unhex_hexCh {d : Nat} (h : d < 16) : unhex (hexCh d) = some d := by
  interval_cases d <;> decide

theorem strBody_escChar (c : Char) (tail : List Char) :
    strBody (escChar c ++ tail) = (strBody tail).map fun p => (c :: p.1, p.2) := by
  by_cases h1 : c = '"'
  · subst h1; conv_lhs => rw [escChar]
    conv_lhs => rw [strBody.eq_def]
    simp
  by_cases h2 : c = '\\'
  · subst h2; conv_lhs => rw [escChar]
    conv_lhs => rw [strBody.eq_def]
    simp [h1]
  by_cases h3 : c = '\n'
  · subst h3; conv_lhs => rw [escChar]
    conv_lhs => rw [strBody.eq_def]
    simp
  by_cases h4 : c = '\r'
  · subst h4; conv_lhs => rw [escChar]
    conv_lhs => rw [strBody.eq_def]
    simp
  by_cases h5 : c = '\t'
  · subst h5; conv_lhs => rw [escChar]
    conv_lhs => rw [strBody.eq_def]
    simp
  by_cases h6 : c = '\x08'
  · subst h6; conv_lhs => rw [escChar]
    conv_lhs => rw [strBody.eq_def]
    simp
  by_cases h7 : c = '\x0c'
  · subst h7; conv_lhs => rw [escChar]
    conv_lhs => rw [strBody.eq_def]
    simp
  by_cases h8 : c.toNat < 32
  · have hesc : escChar c
        = ['\\', 'u', '0', '0', hexCh (c.toNat / 16), hexCh (c.toNat % 16)] := by
      simp [escChar, h1, h2, h3, h4, h5, h6, h7, h8]
    rw [hesc]
    have e1 : c.toNat / 16 < 16 := by omega
    have e2 : c.toNat % 16 < 16 := by omega
    have u0 : unhex '0' = some 0 := by decide
    simp only [List.cons_append, List.nil_append]
    conv_lhs => rw [strBody.eq_def]
    simp only [reduceIte, u0, unhex_hexCh e1, unhex_hexCh e2]
    have harith : 16 * (c.toNat / 16) + c.toNat % 16 = c.toNat := Nat.div_add_mod _ 16
    simp [harith, Char.ofNat_toNat]
  · have hesc : escChar c = [c] := by
      simp [escChar, h1, h2, h3, h4, h5, h6, h7, h8]
    rw [hesc]
    simp only [List.cons_append, List.nil_append]
    conv_lhs => rw [strBody.eq_def]
    simp [h1, h2]

theorem strBody_escStr (s : List Char) (rest : List Char) :
    strBody (escStr s ++ '"' :: rest) = some (s, rest) := by
  induction s with
  | nil =>
    rw [escStr, List.nil_append, strBody.eq_def]
    simp
  | cons c t ih =>
    rw [escStr, List.append_assoc, strBody_escChar, ih]
    rfl

theorem dropWs_cons {c : Char} (h : wsChar c = false) (r : List Char) :
    dropWs (c :: r) = c :: r := by
  simp [dropWs, h]

theorem ne_of_digit {c a : Char} (h : c.isDigit = true) (ha : a.isDigit = false) :
    c ≠ a := by
  intro he
  rw [he, ha] at h
  exact absurd h (by decide)

theorem digit_facts {c : Char} (h : c.isDigit = true) :
    wsChar c = false ∧ c ≠ ']' ∧ c ≠ '\x7d' ∧ c ≠ 'n' ∧ c ≠ 't' ∧ c ≠ 'f'
      ∧ c ≠ '"' ∧ c ≠ '[' ∧ c ≠ '\x7b' ∧ c ≠ '-' := by
  have hsp : c ≠ ' ' := ne_of_digit h (by decide)
  have hnl : c ≠ '\n' := ne_of_digit h (by decide)
  have htb : c ≠ '\t' := ne_of_digit h (by decide)
  have hcr : c ≠ '\r' := ne_of_digit h (by decide)
  exact ⟨by simp [wsChar, hsp, hnl, htb, hcr],
    ne_of_digit h (by decide), ne_of_digit h (by decide), ne_of_digit h (by decide),
    ne_of_digit h (by decide), ne_of_digit h (by decide), ne_of_digit h (by decide),
    ne_of_digit h (by decide), ne_of_digit h (by decide), ne_of_digit h (by decide)⟩

theorem jdump_head (v : Json) :
    ∃ c t, jdump v = c :: t ∧ wsChar c = false ∧ c ≠ ']' ∧ c ≠ '\x7d' := by
  have hok : ∀ c : Char, c ∈ (['n', 't', 'f', '"', '[', '\x7b', '-'] : List Char) →
      wsChar c = false ∧ c ≠ ']' ∧ c ≠ '\x7d' := by decide
  cases v with
  | jnull => exact ⟨'n', _, rfl, hok 'n' (by decide)⟩
  | jbool b =>
    cases b
    · exact ⟨'f', _, rfl, hok 'f' (by decide)⟩
    · exact ⟨'t', _, rfl, hok 't' (by decide)⟩
  | jstr s => exact ⟨'"', _, rfl, hok '"' (by decide)⟩
  | jarr xs => exact ⟨'[', _, rfl, hok '[' (by decide)⟩
  | jobj fs => exact ⟨'\x7b', _, rfl, hok '\x7b' (by decide)⟩
  | jnum n =>
    by_cases hn : n < 0
    · exact ⟨'-', natChars n.natAbs, by simp [jdump, intChars, hn], hok '-' (by decide)⟩
    · obtain ⟨c, t, hct, hc⟩ := natChars_head n.natAbs
      obtain ⟨hws, hbr, hbc, -⟩ := digit_facts hc
      refine ⟨c, t, ?_, hws, hbr, hbc⟩
      simp [jdump, intChars, hn, hct]

theorem noDigitHead_sep (xs : List Json) (rest : List Char) :
    noDigitHead (jdumpSep xs ++ ']' :: rest) = true := by
  cases xs <;> simp [jdumpSep, noDigitHead]

theorem noDigitHead_fieldSep (fs : List (List Char × Json)) (rest : List Char) :
    noDigitHead (jdumpFieldSep fs ++ '\x7d' :: rest) = true := by
  cases fs <;> simp [jdumpFieldSep, noDigitHead]

theorem jdump_len_pos (v : Json) : 1 ≤ (jdump v).length := by
  obtain ⟨c, t, hct, -, -, -⟩ := jdump_head v
  rw [hct]
  simp

mutual

theorem rt_jread : ∀ (v : Json) (fuel : Nat) (rest : List Char),
    (jdump v).length < fuel → noDigitHead rest = true →
    jread fuel (jdump v ++ rest) = some (v, rest)
  | .jnull, fuel, rest, hf, _ => by
    cases fuel with
    | zero => simp [jdump] at hf
    | succ f =>
      simp only [jdump, List.cons_append, List.nil_append]
      simp [jread, dropWs, wsChar]
  | .jbool b, fuel, rest, hf, _ => by
    cases fuel with
    | zero => cases b <;> simp [jdump] at hf
    | succ f =>
      cases b <;>
        (simp only [jdump, List.cons_append, List.nil_append]
         simp [jread, dropWs, wsChar])
  | .jnum n, fuel, rest, hf, hrest => by
    cases fuel with
    | zero => exact absurd hf (by omega)
    | succ f =>
      by_cases hn : n < 0
      · have hd : jdump (Json.jnum n) = '-' :: natChars n.natAbs := by
          simp [jdump, intChars, hn]
        rw [hd]
        simp only [List.cons_append]
        simp only [jread]
        rw [dropWs_cons (by decide)]
        have hneg : -((n.natAbs : Int)) = n := by omega
        simp [numLit_natChars n.natAbs hrest, hneg]
        rw [abs_of_neg hn, neg_neg]
      · obtain ⟨c, t, hct, hcd⟩ := natChars_head n.natAbs
        obtain ⟨hws, -, -, hne1, hne2, hne3, hne4, hne5, hne6, hne7⟩ := digit_facts hcd
        have hd : jdump (Json.jnum n) = c :: t := by
          simp [jdump, intChars, hn, hct]
        rw [hd]
        simp only [List.cons_append]
        simp only [jread]
        rw [dropWs_cons hws]
        have hback : c :: (t ++ rest) = natChars n.natAbs ++ rest := by
          rw [hct]
          simp
        have hpos : ((n.natAbs : Int)) = n := by omega
        simp [hne1, hne2, hne3, hne4, hne5, hne6, hne7, hcd, hback,
              numLit_natChars n.natAbs hrest, hpos]
  | .jstr s, fuel, rest, hf, _ => by
    cases fuel with
    | zero => exact absurd hf (by omega)
    | succ f =>
      have harg : jdump (Json.jstr s) ++ rest = '"' :: (escStr s ++ '"' :: rest) := by
        simp [jdump]
      rw [harg]
      simp only [jread]
      rw [dropWs_cons (by decide)]
      simp [strBody_escStr]
  | .jarr xs, fuel, rest, hf, _ => by
    cases fuel with
    | zero => exact absurd hf (by omega)
    | succ f =>
      have harg : jdump (Json.jarr xs) ++ rest = '[' :: (jdumpItems xs ++ ']' :: rest) := by
        simp [jdump]
      have hlen : (jdumpItems xs).length + 1 < f := by
        simp [jdump] at hf
        omega
      rw [harg]
      simp only [jread]
      rw [dropWs_cons (by decide)]
      simp [rt_jreadItems xs f rest hlen]
  | .jobj fs, fuel, rest, hf, _ => by
    cases fuel with
    | zero => exact absurd hf (by omega)
    | succ f =>
      have harg : jdump (Json.jobj fs) ++ rest
          = '\x7b' :: (jdumpFields fs ++ '\x7d' :: rest) := by
        simp [jdump]
      have hlen : (jdumpFields fs).length + 1 < f := by
        simp [jdump] at hf
        omega
      rw [harg]
      simp only [jread]
      rw [dropWs_cons (by decide)]
      simp [rt_jreadFields fs f rest hlen]

theorem rt_jreadItems : ∀ (xs : List Json) (fuel : Nat) (rest : List Char),
    (jdumpItems xs).length + 1 < fuel →
    jreadItems fuel (jdumpItems xs ++ ']' :: rest) = some (.jarr xs, rest)
  | [], fuel, rest, hf => by
    cases fuel with
    | zero => exact absurd hf (by omega)
    | succ f =>
      simp only [jdumpItems, List.nil_append]
      simp only [jreadItems]
      rw [dropWs_cons (by decide)]
      simp
  | x :: xs, fuel, rest, hf => by
    cases fuel with
    | zero => exact absurd hf (by omega)
    | succ f =>
      obtain ⟨c, t, hct, hws, hbr, -⟩ := jdump_head x
      have harg : jdumpItems (x :: xs) ++ ']' :: rest
          = jdump x ++ (jdumpSep xs ++ ']' :: rest) := by
        simp [jdumpItems]
      have hlx : (jdump x).length < f := by
        simp [jdumpItems] at hf
        omega
      have hsx : (jdumpSep xs).length + 1 < f := by
        have := jdump_len_pos x
        simp [jdumpItems] at hf
        omega
      have hv := rt_jread x f (jdumpSep xs ++ ']' :: rest) hlx (noDigitHead_sep xs rest)
      have htl := rt_jreadTail xs f rest hsx
      rw [harg]
      simp only [jreadItems]
      rw [hct, List.cons_append, dropWs_cons hws]
      have hback : c :: (t ++ (jdumpSep xs ++ ']' :: rest))
          = jdump x ++ (jdumpSep xs ++ ']' :: rest) := by
        rw [hct]
        simp
      simp [hbr, hback, hv, htl]

theorem rt_jreadTail : ∀ (xs : List Json) (fuel : Nat) (rest : List Char),
    (jdumpSep xs).length + 1 < fuel →
    jreadTail fuel (jdumpSep xs ++ ']' :: rest) = some (xs, rest)
  | [], fuel, rest, hf => by
    cases fuel with
    | zero => exact absurd hf (by omega)
    | succ f =>
      simp only [jdumpSep, List.nil_append]
      simp only [jreadTail]
      rw [dropWs_cons (by decide)]
      simp
  | x :: xs, fuel, rest, hf => by
    cases fuel with
    | zero => exact absurd hf (by omega)
    | succ f =>
      have harg : jdumpSep (x :: xs) ++ ']' :: rest
          = ',' :: (jdump x ++ (jdumpSep xs ++ ']' :: rest)) := by
        simp [jdumpSep]
      have hlx : (jdump x).length < f := by
        simp [jdumpSep] at hf
        omega
      have hsx : (jdumpSep xs).length + 1 < f := by
        simp [jdumpSep] at hf
        omega
      have hv := rt_jread x f (jdumpSep xs ++ ']' :: rest) hlx (noDigitHead_sep xs rest)
      have htl := rt_jreadTail xs f rest hsx
      rw [harg]
      simp only [jreadTail]
      rw [dropWs_cons (by decide)]
      simp [hv, htl]

theorem rt_jreadField : ∀ (kv : List Char × Json) (fuel : Nat) (rest : List Char),
    (jdumpField kv).length < fuel → noDigitHead rest = true →
    jreadField fuel (jdumpField kv ++ rest) = some (kv, rest)
  | (k, v), fuel, rest, hf, hrest => by
    cases fuel with
    | zero => exact absurd hf (by omega)
    | succ f =>
      have harg : jdumpField (k, v) ++ rest
          = '"' :: (escStr k ++ '"' :: (':' :: (jdump v ++ rest))) := by
        simp [jdumpField]
      have hlv : (jdump v).length < f := by
        simp [jdumpField] at hf
        omega
      have hv := rt_jread v f rest hlv hrest
      rw [harg]
      simp only [jreadField]
      have hsb : strBody (escStr k ++ '"' :: (':' :: (jdump v ++ rest)))
          = some (k, ':' :: (jdump v ++ rest)) := strBody_escStr k _
      simp [hsb, dropWs_cons (show wsChar ':' = false by decide), hv]

theorem rt_jreadFields : ∀ (fs : List (List Char × Json)) (fuel : Nat) (rest : List Char),
    (jdumpFields fs).length + 1 < fuel →
    jreadFields fuel (jdumpFields fs ++ '\x7d' :: rest) = some (.jobj fs, rest)
  | [], fuel, rest, hf => by
    cases fuel with
    | zero => exact absurd hf (by omega)
    | succ f =>
      simp only [jdumpFields, List.nil_append]
      simp only [jreadFields]
      rw [dropWs_cons (by decide)]
      simp
  | (k, v) :: fs, fuel, rest, hf => by
    cases fuel with
    | zero => exact absurd hf (by omega)
    | succ f =>
      have hlf : (jdumpField (k, v)).length < f := by
        simp [jdumpFields] at hf
        omega
      have hsf : (jdumpFieldSep fs).length + 1 < f := by
        have h1 := jdump_len_pos v
        simp [jdumpFields, jdumpField] at hf
        omega
      have hfv := rt_jreadField (k, v) f (jdumpFieldSep fs ++ '\x7d' :: rest) hlf
        (noDigitHead_fieldSep fs rest)
      have htl := rt_jreadFieldTail fs f rest hsf
      have harg : jdumpFields ((k, v) :: fs) ++ '\x7d' :: rest
          = jdumpField (k, v) ++ (jdumpFieldSep fs ++ '\x7d' :: rest) := by
        simp [jdumpFields]
      rw [harg]
      simp only [jreadFields]
      simp only [jdumpField, List.cons_append, List.append_assoc] at hfv ⊢
      rw [dropWs_cons (by decide)]
      simp [hfv, htl]

theorem rt_jreadFieldTail :
    ∀ (fs : List (List Char × Json)) (fuel : Nat) (rest : List Char),
    (jdumpFieldSep fs).length + 1 < fuel →
    jreadFieldTail fuel (jdumpFieldSep fs ++ '\x7d' :: rest) = some (fs, rest)
  | [], fuel, rest, hf => by
    cases fuel with
    | zero => exact absurd hf (by omega)
    | succ f =>
      simp only [jdumpFieldSep, List.nil_append]
      simp only [jreadFieldTail]
      rw [dropWs_cons (by decide)]
      simp
  | (k, v) :: fs, fuel, rest, hf => by
    cases fuel with
    | zero => exact absurd hf (by omega)
    | succ f =>
      have hlf : (jdumpField (k, v)).length < f := by
        simp [jdumpFieldSep] at hf
        omega
      have hsf : (jdumpFieldSep fs).length + 1 < f := by
        simp [jdumpFieldSep] at hf
        omega
      have hfv := rt_jreadField (k, v) f (jdumpFieldSep fs ++ '\x7d' :: rest) hlf
        (noDigitHead_fieldSep fs rest)
      have htl := rt_jreadFieldTail fs f rest hsf
      have harg : jdumpFieldSep ((k, v) :: fs) ++ '\x7d' :: rest
          = ',' :: (jdumpField (k, v) ++ (jdumpFieldSep fs ++ '\x7d' :: rest)) := by
        simp [jdumpFieldSep]
      rw [harg]
      simp only [jreadFieldTail]
      rw [dropWs_cons (by decide)]
      simp only [jdumpField, List.cons_append, List.append_assoc] at hfv ⊢
      rw [dropWs_cons (by decide)]
      simp [hfv, htl]

end

/-- Parsing a stringified value recovers it exactly: the `JSON.parse` /
`JSON.stringify` round trip over the whole grammar of the model. -/
theorem jsonParse_jdump (v : Json) : jsonParse (jdump v) = some v := by
  rw [jsonParse]
  have h := rt_jread v ((jdump v).length + 1) [] (by omega) (by decide)
  rw [List.append_nil] at h
  rw [h]
  simp [dropWs]

/-! ## The idealised cipher inverts and binds -/

theorem charsOfBytes_bytesOfChars (s : List Char) :
    charsOfBytes (bytesOfChars s) = s := by
  induction s with
  | nil => rfl
  | cons c t ih =>
    simp only [charsOfBytes, bytesOfChars, List.map_cons] at ih ⊢
    rw [List.cons.injEq]
    refine ⟨by simp [Char.ofNat_toNat], ih⟩

theorem tagOf_inj {k1 i1 d1 k2 i2 d2 : List Int}
    (h : tagOf k1 i1 d1 = tagOf k2 i2 d2) : k1 = k2 ∧ i1 = i2 ∧ d1 = d2 := by
  simp only [tagOf, List.cons_append, List.append_assoc] at h
  rw [List.cons.injEq] at h
  obtain ⟨hlen, h⟩ := h
  have hklen : k1.length = k2.length := by exact_mod_cast hlen
  obtain ⟨hk, h⟩ := List.append_inj h hklen
  rw [List.cons.injEq] at h
  obtain ⟨hilen, h⟩ := h
  have hilen2 : i1.length = i2.length := by exact_mod_cast hilen
  obtain ⟨hi, hd⟩ := List.append_inj h hilen2
  exact ⟨hk, hi, hd⟩

theorem decrypt_encrypt (key : MachineKey) (iv : List Int) (obj : Json) :
    decrypt key (encrypt key iv obj) = some obj := by
  rw [decrypt]
  simp only [encrypt]
  simp [charsOfBytes_bytesOfChars, jsonParse_jdump]

theorem decrypt_other_key {k1 k2 : MachineKey} (h : k1 ≠ k2) (iv : List Int)
    (obj : Json) : decrypt k2 (encrypt k1 iv obj) = none := by
  rw [decrypt]
  simp only [encrypt]
  rw [if_neg]
  intro he
  exact h (tagOf_inj he).1

theorem decrypt_bad_tag {key : MachineKey} {p : GcmPayload}
    (h : p.tag ≠ tagOf key p.iv p.data) : decrypt key p = none := by
  rw [decrypt, if_neg h]

/-! ## Credential serialisation round trip -/

theorem numListOf_map (l : List Int) : numListOf (l.map .jnum) = some l := by
  induction l with
  | nil => rfl
  | cons a t ih => simp [numListOf, ih]

theorem asNums_numsJson (l : List Int) : asNums (numsJson l) = some l := by
  simp [asNums, numsJson, numListOf_map]

theorem jsonToPayload_payloadToJson (p : GcmPayload) :
    jsonToPayload (payloadToJson p) = some p := by
  simp [jsonToPayload, payloadToJson, getField, lookupField, asNums_numsJson]

theorem getField_credential_valid (b : Bool) (t : Int) :
    getField (credentialJson b t) ("valid".data) = some (.jbool b) := by
  simp [credentialJson, getField, lookupField]

theorem getField_credential_at (b : Bool) (t : Int) :
    getField (credentialJson b t) ("at".data) = some (.jnum t) := by
  simp [credentialJson, getField, lookupField]

/-- What `hasValidKey` answers on a genuine key file written by the client on
the same machine: the `valid` flag conjoined with the non-expiry test. -/
theorem hasValidKey_keyBlob (key : MachineKey) (iv : List Int) (b : Bool)
    (t now maxAge : Int) :
    hasValidKey key (some (keyBlob key iv b t)) now maxAge
      = (b && decide (now - t ≤ maxAge)) := by
  rw [hasValidKey, keyBlob]
  simp only [jsonParse_jdump, jsonToPayload_payloadToJson, decrypt_encrypt]
  cases b with
  | false => simp [credentialJson, getField, lookupField, jsTruthy]
  | true =>
    by_cases h : now - t > maxAge
    · have h2 : ¬(now - t ≤ maxAge) := by omega
      simp [credentialJson, getField, lookupField, jsTruthy, h, h2]
    · have h2 : now - t ≤ maxAge := by omega
      simp [credentialJson, getField, lookupField, jsTruthy, h, h2]

theorem hasValidKey_tampered (key : MachineKey) {q : GcmPayload}
    (h : q.tag ≠ tagOf key q.iv q.data) (now maxAge : Int) :
    hasValidKey key (some (jdump (payloadToJson q))) now maxAge = false := by
  rw [hasValidKey]
  simp [jsonParse_jdump, jsonToPayload_payloadToJson, decrypt_bad_tag h]

theorem hasValidKey_badJson (key : MachineKey) {raw : List Char}
    (h : jsonParse raw = none) (now maxAge : Int) :
    hasValidKey key (some raw) now maxAge = false := by
  rw [hasValidKey, h]

/-! ## Rate limiter lemmas -/

theorem checkIPRateLimit_prunes (l : List Int) (now : Int) :
    (checkIPRateLimit l now).2 = l.filter fun ts => now - ratelimitMs < ts := by
  simp only [checkIPRateLimit]
  split <;> rfl

theorem jsMin_foldl_lb {c : Int} : ∀ (xs : List Int) (a : Int),
    c < a → (∀ x ∈ xs, c < x) → c < xs.foldl min a
  | [], _, ha, _ => ha
  | x :: xs, a, ha, hxs => by
    rw [List.foldl_cons]
    exact jsMin_foldl_lb xs (min a x) (lt_min ha (hxs x (List.mem_cons_self x xs)))
      fun y hy => hxs y (List.mem_cons_of_mem x hy)

theorem jsMin_lb {c : Int} {l : List Int} (hne : l ≠ []) (h : ∀ x ∈ l, c < x) :
    c < jsMin l := by
  cases l with
  | nil => exact absurd rfl hne
  | cons x xs =>
    exact jsMin_foldl_lb xs x (h x (List.mem_cons_self x xs))
      fun y hy => h y (List.mem_cons_of_mem x hy)

/-! ## The claims -/

set_option maxRecDepth 8000 in
/-- **C1** (code bug). The spec demands single-use sessions: a second
`/validate` with identical valid parameters must be rejected with no second
credential write. The client creates its session with `validated: false`
(src/client/adwall.js lines 360-366) but the `/validate` handler never reads
or sets that flag: on this concrete run the identical second request,
arriving once the 20-second rate window has elapsed and while the external
verifier still accepts the token, succeeds again and performs a second
credential write (a fresh key blob issued at the second instant), the
`sessions` map never having been consulted. -/
theorem C1_second_validate_writes_again :
    ((validateHandler cfgEx stEmpty reqA).1 = .successJson 86400000
      ∧ (validateHandler cfgEx stEmpty reqA).2.keyFile
          = some (keyBlob [1] [3] true 20000))
  ∧ ((validateHandler cfgEx (validateHandler cfgEx stEmpty reqA).2 reqB).1
        = .successJson 86400000
      ∧ (validateHandler cfgEx (validateHandler cfgEx stEmpty reqA).2 reqB).2.keyFile
          = some (keyBlob [1] [3] true 40001)
      ∧ some (keyBlob [1] [3] true 40001) ≠ some (keyBlob [1] [3] true 20000))
  ∧ (validateHandler cfgEx (validateHandler cfgEx stEmpty reqA).2 reqB).2.sessions
      = [("sid-1", sessEx)]
  ∧ sessEx.validated = false := by
  decide

/-- **C2** (confirmed, part_000 final-redirect handler). A request whose
referrer origin differs from the configured adwall page origin is rejected
with `invalid_referrer` — whatever the supplied code `req.v` is — the key
file is untouched, and the rejection is terminal for the session: the server
is closed and the gate promise resolves `{valid: false}`, so no retry on this
session is possible. -/
theorem C2_referrer_enforcement (cfg : P0Config) (st : P0State) (req : P0Req)
    (h : req.refererOrigin ≠ some cfg.expectedReferrer) (hres : st.resolved = none) :
    (rootHandler cfg st req).1 = .invalidReferrer
  ∧ (rootHandler cfg st req).2.serverClosed = true
  ∧ (rootHandler cfg st req).2.resolved = some { valid := false, url := none }
  ∧ (rootHandler cfg st req).2.keyFile = st.keyFile := by
  simp [rootHandler, h, jsResolve, hres]

/-- Witness for C2: a wrong referrer origin with a fully correct code is
rejected with the referrer error. -/
theorem C2_referrer_enforcement_witness :
    ((some "https://evil.example" : Option String) ≠ some "https://good.example")
  ∧ (rootHandler
      { mkey := [1], expectedReferrer := "https://good.example",
        sessionTimeout := 300000, minDelay := 15000, expected := "code",
        startTime := 0 }
      { keyFile := none, serverClosed := false, resolved := none }
      { refererOrigin := some "https://evil.example", v := some "code",
        now := 20000, iv := [2] }).1 = .invalidReferrer :=
  ⟨by decide,
   (C2_referrer_enforcement
      { mkey := [1], expectedReferrer := "https://good.example",
        sessionTimeout := 300000, minDelay := 15000, expected := "code",
        startTime := 0 }
      { keyFile := none, serverClosed := false, resolved := none }
      { refererOrigin := some "https://evil.example", v := some "code",
        now := 20000, iv := [2] }
      (by decide) rfl).1⟩

/-- **C3** (confirmed, part_000 final-redirect handler). Exact dwell
boundary: at `startTime + minDelay - 1` the request is rejected as premature
with the remaining wait (1 ms) and the state is completely unchanged — the
server stays open and the same session may retry; at `startTime + minDelay`,
with the referrer correct, the session unexpired and the code correct, the
request is accepted and the credential is written. -/
theorem C3_minimum_dwell_boundary (cfg : P0Config) (st : P0State)
    (iv1 iv2 : List Int) (hto : cfg.minDelay ≤ cfg.sessionTimeout) :
    (rootHandler cfg st
        { refererOrigin := some cfg.expectedReferrer, v := some cfg.expected,
          now := cfg.startTime + cfg.minDelay - 1, iv := iv1 })
      = (.minimumDelayNotMet 1, st)
  ∧ ((rootHandler cfg st
        { refererOrigin := some cfg.expectedReferrer, v := some cfg.expected,
          now := cfg.startTime + cfg.minDelay, iv := iv2 }).1 = .result true
      ∧ (rootHandler cfg st
          { refererOrigin := some cfg.expectedReferrer, v := some cfg.expected,
            now := cfg.startTime + cfg.minDelay, iv := iv2 }).2.keyFile
        = some (keyBlob cfg.mkey iv2 true (cfg.startTime + cfg.minDelay))) := by
  have hnx1 : ¬(cfg.startTime + cfg.minDelay - 1 - cfg.startTime > cfg.sessionTimeout) := by
    omega
  have hpre : cfg.startTime + cfg.minDelay - 1 - cfg.startTime < cfg.minDelay := by
    omega
  have hrem : cfg.minDelay - (cfg.startTime + cfg.minDelay - 1 - cfg.startTime) = 1 := by
    omega
  have hnx2 : ¬(cfg.startTime + cfg.minDelay - cfg.startTime > cfg.sessionTimeout) := by
    omega
  have hnpre : ¬(cfg.startTime + cfg.minDelay - cfg.startTime < cfg.minDelay) := by
    omega
  have hat : cfg.startTime + cfg.minDelay - cfg.startTime = cfg.minDelay := by
    omega
  have hto2 : ¬(cfg.sessionTimeout < cfg.minDelay) := by omega
  refine ⟨?_, ?_, ?_⟩
  · simp [rootHandler, hnx1, hpre, hrem]
  · simp [rootHandler, hnx2, hnpre, hto2]
  · simp [rootHandler, hnx2, hnpre, hto2]

/-- Witness for C3 at concrete numbers (15-second dwell, 5-minute session
timeout). -/
theorem C3_minimum_dwell_boundary_witness :
    (rootHandler
        { mkey := [1], expectedReferrer := "https://good.example",
          sessionTimeout := 300000, minDelay := 15000, expected := "code",
          startTime := 100 }
        { keyFile := none, serverClosed := false, resolved := none }
        { refererOrigin := some "https://good.example", v := some "code",
          now := 100 + 15000 - 1, iv := [2] })
      = (.minimumDelayNotMet 1,
         { keyFile := none, serverClosed := false, resolved := none })
  ∧ (rootHandler
        { mkey := [1], expectedReferrer := "https://good.example",
          sessionTimeout := 300000, minDelay := 15000, expected := "code",
          startTime := 100 }
        { keyFile := none, serverClosed := false, resolved := none }
        { refererOrigin := some "https://good.example", v := some "code",
          now := 100 + 15000, iv := [2] }).1 = .result true := by
  have h := C3_minimum_dwell_boundary
    { mkey := [1], expectedReferrer := "https://good.example",
      sessionTimeout := 300000, minDelay := 15000, expected := "code",
      startTime := 100 }
    { keyFile := none, serverClosed := false, resolved := none }
    [2] [2] (by decide)
  exact ⟨h.1, h.2.1⟩

theorem checkIPRateLimit_limited {l : List Int} {now : Int}
    (h : ∃ ts ∈ l, now - ratelimitMs < ts) :
    ∃ nrt cnt, (checkIPRateLimit l now).1 = .limited nrt cnt ∧ now < nrt := by
  obtain ⟨ts, hts, hgt⟩ := h
  have hmem : ts ∈ l.filter fun x => now - ratelimitMs < x := by
    simp [List.mem_filter, hts, hgt]
  have hne : (l.filter fun x => now - ratelimitMs < x) ≠ [] :=
    fun hnil => absurd (hnil ▸ hmem) (List.not_mem_nil ts)
  have hlen : 1 ≤ (l.filter fun x => now - ratelimitMs < x).length := by
    cases hfe : l.filter fun x => now - ratelimitMs < x with
    | nil => exact absurd hfe hne
    | cons a t => simp
  have hlb : now - ratelimitMs < jsMin (l.filter fun x => now - ratelimitMs < x) := by
    refine jsMin_lb hne ?_
    intro x hx
    have hx2 := (List.mem_filter.mp hx).2
    simpa using hx2
  refine ⟨jsMin (l.filter fun x => now - ratelimitMs < x) + ratelimitMs,
          (l.filter fun x => now - ratelimitMs < x).length, ?_, by omega⟩
  simp only [checkIPRateLimit]
  rw [if_pos hlen]

theorem checkIPRateLimit_allowed {l : List Int} {now : Int}
    (h : ∀ ts ∈ l, ts ≤ now - ratelimitMs) :
    (checkIPRateLimit l now).1 = .allowed := by
  have hnil : (l.filter fun x => now - ratelimitMs < x) = [] := by
    rw [List.filter_eq_nil_iff]
    intro a ha
    have := h a ha
    simp
    omega
  simp only [checkIPRateLimit]
  rw [hnil]
  simp

/-- **C4** (confirmed). The rolling-window rate limiter: (i) before each
check the stored ledger is pruned to the timestamps strictly inside the
20-second window; (ii) after a successful validation recorded at `t0`, a
further attempt at any `now` with `t0` still inside the window (the N+1-th
attempt within the window, N = 1 here) is rejected as `limited` with a
`nextRetryTime` strictly in the future; (iii) once every recorded timestamp
has aged out of the window, the next attempt is allowed again. -/
theorem C4_rate_limit_window (l : List Int) (now t0 now2 : Int) :
    ((checkIPRateLimit l now).2 = l.filter fun ts => now - ratelimitMs < ts)
  ∧ (now - ratelimitMs < t0 →
      ∃ nrt cnt, (checkIPRateLimit (recordValidation l t0) now).1 = .limited nrt cnt
        ∧ now < nrt)
  ∧ ((∀ ts ∈ recordValidation l t0, ts ≤ now2 - ratelimitMs) →
      (checkIPRateLimit (recordValidation l t0) now2).1 = .allowed) := by
  refine ⟨checkIPRateLimit_prunes l now, ?_, ?_⟩
  · intro ht0
    exact checkIPRateLimit_limited ⟨t0, by simp [recordValidation], ht0⟩
  · intro hall
    exact checkIPRateLimit_allowed hall

/-- Witness for C4: a validation recorded at instant 1000 blocks a second
attempt at instant 2000 with a future retry time, and an attempt at instant
21000 (window elapsed) is allowed; pruning on a concrete ledger. -/
theorem C4_rate_limit_window_witness :
    ((checkIPRateLimit [5] 10).2 = [5])
  ∧ (∃ nrt cnt, (checkIPRateLimit (recordValidation [] 1000) 2000).1 = .limited nrt cnt
       ∧ 2000 < nrt)
  ∧ (checkIPRateLimit (recordValidation [] 1000) 21000).1 = .allowed := by
  refine ⟨?_, (C4_rate_limit_window [] 2000 1000 0).2.1 (by decide),
          (C4_rate_limit_window [] 0 1000 21000).2.2 (by decide)⟩
  rw [(C4_rate_limit_window [5] 10 0 0).1]
  decide

/-- **C5** (confirmed). `hasValidKey` is total and collapses every failure to
`false`: absent file; unparsable JSON; a stored payload whose authentication
tag does not verify; a genuine payload with its ciphertext bytes altered, or
with its tag altered (any flipped byte is such an alteration); and on a
genuine credential written on this machine it answers `true` exactly when
the `valid` flag is set and `now - issuedAt ≤ maxAge` (hence `false` for a
false flag, for `now - issuedAt > maxAge`, and for `maxAge = 0` with any
positive age). -/
theorem C5_hasValidKey_collapses_failures (key : MachineKey) (now maxAge : Int) :
    hasValidKey key none now maxAge = false
  ∧ (∀ raw, jsonParse raw = none → hasValidKey key (some raw) now maxAge = false)
  ∧ (∀ q : GcmPayload, q.tag ≠ tagOf key q.iv q.data →
      hasValidKey key (some (jdump (payloadToJson q))) now maxAge = false)
  ∧ (∀ (iv : List Int) (issuedAt : Int) (d2 : List Int),
      d2 ≠ (encrypt key iv (credentialJson true issuedAt)).data →
      hasValidKey key (some (jdump (payloadToJson
        { encrypt key iv (credentialJson true issuedAt) with data := d2 })))
        now maxAge = false)
  ∧ (∀ (iv : List Int) (issuedAt : Int) (t2 : List Int),
      t2 ≠ (encrypt key iv (credentialJson true issuedAt)).tag →
      hasValidKey key (some (jdump (payloadToJson
        { encrypt key iv (credentialJson true issuedAt) with tag := t2 })))
        now maxAge = false)
  ∧ (∀ (iv : List Int) (b : Bool) (issuedAt : Int),
      hasValidKey key (some (keyBlob key iv b issuedAt)) now maxAge
        = (b && decide (now - issuedAt ≤ maxAge))) := by
  refine ⟨rfl, fun raw h => hasValidKey_badJson key h now maxAge,
          fun q h => hasValidKey_tampered key h now maxAge, ?_, ?_,
          fun iv b issuedAt => hasValidKey_keyBlob key iv b issuedAt now maxAge⟩
  · intro iv issuedAt d2 hne
    refine hasValidKey_tampered key ?_ now maxAge
    simp only [encrypt] at hne ⊢
    intro he
    exact hne ((tagOf_inj he).2.2).symm
  · intro iv issuedAt t2 hne
    refine hasValidKey_tampered key ?_ now maxAge
    simp only [encrypt] at hne ⊢
    exact hne

/-- Witness for C5: the failure cases and the genuine-credential answer at
concrete values (an unparsable file, a payload with a wrong tag, a fresh and
an expired credential, a false flag, and `maxAge = 0`). -/
theorem C5_hasValidKey_collapses_failures_witness :
    hasValidKey [5] (some ("\x7b".data)) 100 10 = false
  ∧ hasValidKey [5] (some (jdump (payloadToJson
      { iv := [7], tag := [9], data := [1] }))) 100 10 = false
  ∧ hasValidKey [5] (some (keyBlob [5] [7] true 95)) 100 10 = true
  ∧ hasValidKey [5] (some (keyBlob [5] [7] true 80)) 100 10 = false
  ∧ hasValidKey [5] (some (keyBlob [5] [7] false 95)) 100 10 = false
  ∧ hasValidKey [5] (some (keyBlob [5] [7] true 95)) 100 0 = false := by
  have h1 := (C5_hasValidKey_collapses_failures [5] 100 10).2.1 ("\x7b".data)
    (Option.isNone_iff_eq_none.mp (by decide))
  have h2 := (C5_hasValidKey_collapses_failures [5] 100 10).2.2.1
    ⟨[7], [9], [1]⟩ (by decide)
  have h3 := (C5_hasValidKey_collapses_failures [5] 100 10).2.2.2.2.2 [7] true 95
  have h4 := (C5_hasValidKey_collapses_failures [5] 100 10).2.2.2.2.2 [7] true 80
  have h5 := (C5_hasValidKey_collapses_failures [5] 100 10).2.2.2.2.2 [7] false 95
  have h6 := (C5_hasValidKey_collapses_failures [5] 100 0).2.2.2.2.2 [7] true 95
  refine ⟨h1, h2, ?_, ?_, ?_, ?_⟩
  · rw [h3]; decide
  · rw [h4]; decide
  · rw [h5]; decide
  · rw [h6]; decide

/-- **C6** (confirmed). Encryption round trip: decrypting the output of
`encrypt(o)` under the same machine fingerprint yields an object equal to
`o`, for every JSON-serialisable object and every nonce. -/
theorem C6_encrypt_decrypt_roundtrip (key : MachineKey) (iv : List Int) (o : Json) :
    decrypt key (encrypt key iv o) = some o :=
  decrypt_encrypt key iv o

/-- **C7** (confirmed). Machine binding: a payload produced by `encrypt`
under one machine fingerprint never decrypts under a different fingerprint —
`decrypt` fails with the integrity error (modelled by `none`) and never
returns plaintext data. -/
theorem C7_machine_binding (k1 k2 : MachineKey) (iv : List Int) (o : Json)
    (h : k1 ≠ k2) : decrypt k2 (encrypt k1 iv o) = none :=
  decrypt_other_key h iv o

/-- Witness for C7 at two concrete distinct fingerprints. -/
theorem C7_machine_binding_witness :
    (([0] : MachineKey) ≠ [1])
  ∧ decrypt [1] (encrypt [0] [7] (credentialJson true 5)) = none :=
  ⟨by decide, C7_machine_binding [0] [1] [7] (credentialJson true 5) (by decide)⟩

/-- **C8** (corrected): counterexample. The claim says a request that is
both premature and over the rate limit is rejected with the minimum-delay
error. On this concrete input — 5 seconds after session start (so
premature) and with a validation recorded at instant 4000 for the caller's
identity (so rate-limited) — the canonical client's `/validate` produces no
minimum-delay error at all: the rate limit is evaluated first and its
branch throws the uncaught `ReferenceError` on the undeclared `debug`
(line 428) before responding; the premature branch (line 443) is never even
reached. -/
theorem C8_counterexample :
    (validateHandler cfgEx stRecent reqEarly).1 = .rateLimitedCrash
  ∧ (validateHandler cfgEx stRecent reqEarly).1 ≠ .tooFastCrash := by
  decide

/-- **C8** amended: in the canonical client's `/validate`, rate limiting is
evaluated before the minimum-dwell check, and neither rejection is actually
delivered — with a token present, an over-the-limit identity makes the
handler throw the uncaught `ReferenceError` on the undeclared `debug` in
the rate-limit branch (line 428), premature or not; an allowed-but-premature
request throws the same `ReferenceError` in the minimum-delay branch
(line 443). -/
theorem C8_rate_limit_before_dwell (cfg : ClientConfig) (st : ClientState)
    (req : ClientReq) (t : String) (htok : req.token = some t) :
    (∀ nrt cnt, (checkIPRateLimit (st.attempts req.ip) req.now).1 = .limited nrt cnt →
        (validateHandler cfg st req).1 = .rateLimitedCrash)
  ∧ ((checkIPRateLimit (st.attempts req.ip) req.now).1 = .allowed →
      req.now - cfg.startTime < minimumDelay →
        (validateHandler cfg st req).1 = .tooFastCrash) := by
  constructor
  · intro nrt cnt hrl
    simp [validateHandler, htok, hrl]
  · intro hrl hpre
    simp [validateHandler, htok, hrl, hpre]

/-- Witness for the amended C8: the premature-and-limited input crashes in
the rate-limit branch, and the same premature request on a fresh ledger
crashes in the minimum-delay branch. -/
theorem C8_rate_limit_before_dwell_witness :
    (validateHandler cfgEx stRecent reqEarly).1 = .rateLimitedCrash
  ∧ (validateHandler cfgEx stEmpty reqEarly).1 = .tooFastCrash :=
  ⟨(C8_rate_limit_before_dwell cfgEx stRecent reqEarly "tok" rfl).1 24000 1 (by decide),
   (C8_rate_limit_before_dwell cfgEx stEmpty reqEarly "tok" rfl).2 (by decide) (by decide)⟩

set_option maxRecDepth 8000 in
/-- **C9** (corrected): counterexample. On a fully successful `/validate`
run of the canonical client (src/client/adwall.js lines 500-510) the server
is not closed: the post-state still has `serverClosed = false` after the
success response, so the gate server remains bound after reaching its
terminal state, contradicting the claim. -/
theorem C9_counterexample :
    (validateHandler cfgEx stEmpty reqA).1 = .successJson 86400000
  ∧ (validateHandler cfgEx stEmpty reqA).2.serverClosed = false := by
  decide

/-- **C9** amended: the part_000 variant does stop its server immediately on
every terminal outcome — its handler closes the server on exactly the
responses other than the retryable premature rejection (referrer mismatch,
session expiry, and the final code result, successful or not) — while the
canonical client (src/client/adwall.js) deliberately keeps listening after
success (see the counterexample). -/
theorem C9_p0_server_closes_on_terminal (cfg : P0Config) (st : P0State)
    (req : P0Req) :
    (rootHandler cfg st req).2.serverClosed
      = (if isMinDelayResp (rootHandler cfg st req).1 then st.serverClosed
         else true) := by
  rw [rootHandler]
  split_ifs <;> simp_all [isMinDelayResp]

/-- **C10** (confirmed). When the external token verification fails (invalid
token, expired token, malformed response, or network error — every
`rejected` outcome), the canonical client's `/validate` answers the error
response and leaves the gate state unchanged: no credential write, the
server keeps listening, the gate promise stays unresolved, the sessions map
is untouched, and no rate-limit timestamp is recorded for the caller's
identity (the ledger only ever loses pruned entries). -/
theorem C10_failed_verification_atomic (cfg : ClientConfig) (st : ClientState)
    (req : ClientReq) (t : String) (e : VerifyErr)
    (htok : req.token = some t)
    (hrl : (checkIPRateLimit (st.attempts req.ip) req.now).1 = .allowed)
    (hdelay : ¬(req.now - cfg.startTime < minimumDelay))
    (hver : validateWorkinkToken req.api req.now = .rejected e) :
    (validateHandler cfg st req).1 = .verifyFailed e
  ∧ (validateHandler cfg st req).2.keyFile = st.keyFile
  ∧ (validateHandler cfg st req).2.serverClosed = st.serverClosed
  ∧ (validateHandler cfg st req).2.resolved = st.resolved
  ∧ (validateHandler cfg st req).2.sessions = st.sessions
  ∧ (∀ i ts, ts ∈ (validateHandler cfg st req).2.attempts i → ts ∈ st.attempts i) := by
  have hred : validateHandler cfg st req
      = (.verifyFailed e,
         { st with attempts := (updateMap st.attempts req.ip
             (checkIPRateLimit (st.attempts req.ip) req.now).2) }) := by
    simp [validateHandler, htok, hrl, hdelay, hver]
  rw [hred]
  refine ⟨rfl, rfl, rfl, rfl, rfl, ?_⟩
  intro i ts hts
  by_cases hi : i = req.ip
  · subst hi
    simp only [updateMap, if_pos rfl] at hts
    rw [checkIPRateLimit_prunes] at hts
    exact (List.mem_filter.mp hts).1
  · simp only [updateMap, if_neg hi] at hts
    exact hts

/-- Witness for C10 on a concrete network-error outcome: error response and
untouched key file. -/
theorem C10_failed_verification_atomic_witness :
    (validateHandler cfgEx stEmpty reqNet).1 = .verifyFailed .apiError
  ∧ (validateHandler cfgEx stEmpty reqNet).2.keyFile = stEmpty.keyFile := by
  have h := C10_failed_verification_atomic cfgEx stEmpty reqNet
    "tok" .apiError rfl (by decide) (by decide) rfl
  exact ⟨h.1, h.2.1⟩

end Adwall
